import Mathlib

/-!
Shallow embedding of `src/valhalla_associate_segments.cc` (nextzen/tools).

Machine floats/doubles of the source are modelled over `ℚ` (the spec's
"within floating rounding" properties are stated exactly); machine integers
over `ℕ`/`ℤ`. External valhalla/midgard library calls (`PointLL::Distance`,
`PointLL::DistanceSquared`, `HeadingAlongPolyline`, loki `Search`, thor
`GetBestPath`, graph-tile lookup) are out of scope per the spec and are
passed in as explicit oracle parameters/fields; everything defined here is
translated from the source file itself.
-/

set_option autoImplicit false

namespace AssocSeg

/-- `vm::PointLL`: a longitude/latitude pair, coordinates as rationals. -/
structure Coord where
  lng : ℚ
  lat : ℚ
deriving DecidableEq, Repr, Inhabited

/-- `interp` (line 51): affine combination of two points at `frac`. -/
def interp (a b : Coord) (frac : ℚ) : Coord :=
  ⟨(1 - frac) * a.lng + frac * b.lng, (1 - frac) * a.lat + frac * b.lat⟩

/-- Loop body of `chop_subsegment` (lines 64-80).  `prev` is `seg[i-1]`, the
list argument is `seg[i..]`, `d` is the accumulated distance.  Returns the
pair (points pushed onto `result` after `seg[0]`, final state of `seg`):
breaking out of the loop leaves `seg = midpoint :: seg[i..]`, exiting by
iteration clears `seg`. `D` is the external `PointLL::Distance`. -/
def chopAux (D : Coord → Coord → ℚ) (dist : ℚ) :
    Coord → List Coord → ℚ → (List Coord × List Coord)
  | _, [], _ => ([], [])
  | prev, c :: rest, d =>
    let segdist := D prev c
    if d + segdist ≥ dist then
      let frac := (dist - d) / segdist
      let midpoint := interp prev c frac
      ([midpoint], midpoint :: c :: rest)
    else
      let r := chopAux D dist c rest (d + segdist)
      (c :: r.1, r.2)

/-- `chop_subsegment` (lines 57-88): chop the first `dist` length off `seg`,
returning (result, remaining seg).  The C++ mutates `seg` in place; here the
final value of `seg` is the second component. -/
def chop_subsegment (D : Coord → Coord → ℚ) (seg : List Coord) (dist : ℚ) :
    List Coord × List Coord :=
  match seg with
  | [] => ([], [])
  | p :: rest =>
    let r := chopAux D dist p rest 0
    (p :: r.1, r.2)

/-- `chop_subsegment` guarded by its `assert(len > 1)` (line 59): the call is
only defined for sequences of at least two points. -/
def chop_subsegmentO (D : Coord → Coord → ℚ) (seg : List Coord) (dist : ℚ) :
    Option (List Coord × List Coord) :=
  if seg.length ≤ 1 then none else some (chop_subsegment D seg dist)

/-- Total cumulative straight-line length of a polyline starting at `prev`. -/
def tlAux (D : Coord → Coord → ℚ) : Coord → List Coord → ℚ
  | _, [] => 0
  | prev, c :: rest => D prev c + tlAux D c rest

/-- Total cumulative straight-line length of a coordinate sequence. -/
def totalLength (D : Coord → Coord → ℚ) : List Coord → ℚ
  | [] => 0
  | p :: rest => tlAux D p rest

/-- `std::round` (half away from zero) on a rational. -/
def croundf (h : ℚ) : ℤ :=
  if 0 ≤ h then ⌊h + 1 / 2⌋ else -⌊-h + 1 / 2⌋

/-- `bearing(shape)` (lines 90-97): round the heading returned by the external
`vm::PointLL::HeadingAlongPolyline(shape, 20)`, here the oracle `H`.  The
asserts at lines 94-95 require `0 ≤ H shape < 360`. -/
def bearing_seq (H : List Coord → ℚ) (shape : List Coord) : ℤ :=
  croundf (H shape)

/-- `bearing(tile, edge_id, dist)` (lines 99-116), with the edge's shape,
direction flag and length already looked up: reverse the shape when the edge
is not forward, chop `⌊dist * edge_len⌋` off the front when `dist > 0`
(the C++ truncates `dist * edge_len` to `uint32_t`), and take the bearing of
the remainder. -/
def bearing_edge (H : List Coord → ℚ) (D : Coord → Coord → ℚ)
    (shape : List Coord) (fwd : Bool) (edge_len : ℕ) (dist : ℚ) : ℤ :=
  let s := if fwd then shape else shape.reverse
  let s2 := if 0 < dist then (chop_subsegment D s (⌊dist * (edge_len : ℚ)⌋ : ℤ)).2 else s
  bearing_seq H s2

/-! ### Road-attribute classifiers (lines 154-246)

Access-mask, use and road-class constants are the external
`valhalla/baldr/graphconstants.h` values referenced by the source. -/

def kAutoAccess : ℕ := 1
def kTruckAccess : ℕ := 8
def kTaxiAccess : ℕ := 32
def kBusAccess : ℕ := 64
def kHOVAccess : ℕ := 128
def kAllAccess : ℕ := 4095
def kFerryUse : ℕ := 41
def kTransitConnectionUse : ℕ := 54
/-- `vb::RoadClass::kMotorway` (smaller value = more important road). -/
def kRoadClassMotorway : ℕ := 0
/-- `vb::RoadClass::kTertiary`. -/
def kRoadClassTertiary : ℕ := 4

/-- The vehicular access mask used throughout the source
(`kAutoAccess | kTruckAccess | kTaxiAccess | kBusAccess | kHOVAccess`). -/
def vehicularAccess : ℕ :=
  kAutoAccess ||| kTruckAccess ||| kTaxiAccess ||| kBusAccess ||| kHOVAccess

/-- `vb::DirectedEdge`: the fields of the external directed-edge record that
the source reads. -/
structure DirectedEdge where
  length : ℕ
  forwardaccess : ℕ
  reverseaccess : ℕ
  shortcut : Bool
  use : ℕ
  trans_up : Bool
  trans_down : Bool
  link : Bool
  roundabout : Bool
  classification : ℕ
  endnode : ℕ
  opp_index : ℕ
  forward : Bool
deriving DecidableEq, Repr, Inhabited

/-- `edge_pred` (lines 154-159): not a ferry, not a transit connection, no
hierarchy transitions. -/
def edge_pred (e : DirectedEdge) : Prop :=
  e.use ≠ kFerryUse ∧ e.use ≠ kTransitConnectionUse ∧
    e.trans_up = false ∧ e.trans_down = false

instance : DecidablePred edge_pred := fun e => by unfold edge_pred; infer_instance

/-- `check_access` (lines 161-181): not a shortcut, `edge_pred` holds, and the
forward access mask grants some vehicular mode. -/
def check_access (e : DirectedEdge) : Prop :=
  e.shortcut = false ∧ edge_pred e ∧
    (kAllAccess &&& e.forwardaccess) &&& vehicularAccess ≠ 0

instance : DecidablePred check_access := fun e => by unfold check_access; infer_instance

/-- `is_oneway` (lines 183-189): no vehicular access in the reverse mask. -/
def is_oneway (e : DirectedEdge) : Prop :=
  e.reverseaccess &&& vehicularAccess = 0

instance : DecidablePred is_oneway := fun e => by unfold is_oneway; infer_instance

/-- `FormOfWay` (lines 191-200). -/
inductive FormOfWay
  | kUndefined
  | kMotorway
  | kMultipleCarriageway
  | kSingleCarriageway
  | kRoundabout
  | kTrafficSquare
  | kSlipRoad
  | kOther
deriving DecidableEq, Repr, Inhabited

/-- `form_of_way` (lines 217-246). -/
def form_of_way (e : DirectedEdge) : FormOfWay :=
  if e.link then .kSlipRoad
  else if e.roundabout then .kRoundabout
  else if e.classification = kRoadClassMotorway ∧ is_oneway e then .kMotorway
  else if e.classification ≤ kRoadClassTertiary ∧ is_oneway e then .kMultipleCarriageway
  else if e.classification ≤ kRoadClassTertiary then .kSingleCarriageway
  else .kOther

/-- Spec-side reading of `is_one_way` (spec §4.2): none of the vehicular
access modes — auto (bit 0), truck (bit 3), taxi (bit 5), bus (bit 6),
HOV (bit 7) — is permitted in the reverse direction. -/
def is_oneway_spec (e : DirectedEdge) : Prop :=
  ¬ e.reverseaccess.testBit 0 ∧ ¬ e.reverseaccess.testBit 3 ∧
    ¬ e.reverseaccess.testBit 5 ∧ ¬ e.reverseaccess.testBit 6 ∧
    ¬ e.reverseaccess.testBit 7

instance : DecidablePred is_oneway_spec := fun e => by
  unfold is_oneway_spec; infer_instance

/-- Spec-side reading of `form_of_way` (spec §4.2, claim C6): the same
decision cascade written against `is_oneway_spec`, where "major class"
means numerically at or above a tertiary-equivalent classification. -/
def form_of_way_spec (e : DirectedEdge) : FormOfWay :=
  if e.link then .kSlipRoad
  else if e.roundabout then .kRoundabout
  else if e.classification = kRoadClassMotorway ∧ is_oneway_spec e then .kMotorway
  else if e.classification ≤ kRoadClassTertiary ∧ is_oneway_spec e then .kMultipleCarriageway
  else if e.classification ≤ kRoadClassTertiary then .kSingleCarriageway
  else .kOther

/-! ### Data model for matching (lines 118-152, 322-347) -/

/-- `pbf::Segment::LocationReference`: the LRP fields the source reads.
`lng`/`lat` are the signed fixed-point 1e7-scaled coordinates. -/
structure LRP where
  lng : ℤ
  lat : ℤ
  bear : ℕ
  start_frc : ℕ
  start_fow : ℕ
  length : ℕ
deriving DecidableEq, Repr, Inhabited

/-- `coord_for_lrp` (lines 322-327). -/
def coord_for_lrp (l : LRP) : Coord :=
  ⟨(l.lng : ℚ) / 10000000, (l.lat : ℚ) / 10000000⟩

/-- One edge candidate of a `vb::PathLocation` (`PathLocation::edges`). -/
structure EdgeCand where
  id : ℕ
  dist : ℚ
  projected : Coord
deriving DecidableEq, Repr, Inhabited

/-- `vb::PathLocation` as returned by the external loki search. -/
structure PathLocation where
  latlng : Coord
  edges : List EdgeCand
deriving DecidableEq, Repr, Inhabited

/-- One element of the path returned by `GetBestPath` (`thor::PathInfo`). -/
structure PathInfo where
  edgeid : ℕ
  elapsed_time : ℕ
deriving DecidableEq, Repr, Inhabited

/-- `vb::NodeInfo`: the node fields the source reads. -/
structure NodeInfo where
  latlng : Coord
  edge_index : ℕ
deriving DecidableEq, Repr, Inhabited

/-- The external collaborators of `edge_association` (spec §1, §6): graph
tile storage (directed edges, nodes, `GraphId::Tile_Base`), the loki spatial
search, the thor path search (`Clear` is called before every use, so it is a
pure function here), and midgard point distances.  Graph ids are naturals. -/
structure Env where
  graph : ℕ → DirectedEdge
  node : ℕ → NodeInfo
  tileBase : ℕ → ℕ
  search : Coord → List PathLocation
  bestPath : PathLocation → PathLocation → List PathInfo
  dist : Coord → Coord → ℚ
  dist2 : Coord → Coord → ℚ

/-- `partial_chunk` (lines 118-120). -/
structure partial_chunk where
  edges : List ℕ
  segments : List ℕ
deriving DecidableEq, Repr, Inhabited

/-- `vb::TrafficAssociation`: (segment id, begin fraction, end fraction). -/
structure TrafficAssociation where
  segment_id : ℕ
  begin_pct : ℚ
  end_pct : ℚ
deriving DecidableEq, Repr, Inhabited

/-- One call to `GraphTileBuilder::AddTrafficSegmentAssociation(edge_id,
assoc)`: the edge and the association vector (records paired with weights)
passed in that call. -/
structure BuilderCall where
  edge_id : ℕ
  assoc : List (TrafficAssociation × ℚ)
deriving DecidableEq, Repr, Inhabited

/-! ### Segment matcher (lines 349-469) -/

/-- The discard reasons of `match_edges`, one per early `return
std::vector<vb::GraphId>()` (lines 360-363, 374-377, 385-389, 399-402,
419-422, 446-449). -/
inductive MatchFail
  | noOriginCandidate
  | noDestCandidate
  | noRoute
  | endpointTooFar
  | inaccessible
  | notAtOrigin
deriving DecidableEq, Repr

/-- The scan of `std::unique`: drop each element equal to the last kept one
(`prev`), keep the rest. -/
def uniqueAdjAux {α : Type} [DecidableEq α] (prev : α) : List α → List α
  | [] => []
  | b :: rest =>
    if prev = b then uniqueAdjAux prev rest else b :: uniqueAdjAux b rest

/-- `std::unique` + `erase` (lines 464-467): collapse each run of equal
consecutive elements to its first element. -/
def uniqueAdj {α : Type} [DecidableEq α] : List α → List α
  | [] => []
  | a :: rest => a :: uniqueAdjAux a rest

/-- The per-LRP-pair loop of `match_edges` (lines 366-462).  `origin` is the
current origin `PathLocation`; the list holds the remaining LRPs starting at
the current one.  The match-quality `score` of lines 405-454 is computed and
then discarded by the source (spec §9 "score as diagnostic"), so it is not
reproduced; only its control flow (the origin-candidate membership test) is.
On success returns the concatenated path edge ids of every pair. -/
def matchLoop (env : Env) : PathLocation → List LRP → Except MatchFail (List ℕ)
  | _, [] => .ok []
  | _, [_] => .ok []
  | origin, _lrp :: next :: rest =>
    let next_coord := coord_for_lrp next
    match env.search next_coord with
    | [] => .error .noDestCandidate
    | dest :: _ =>
      match env.bestPath origin dest with
      | [] => .error .noRoute
      | p0 :: ps =>
        let last_edge_id := (ps.getLastD p0).edgeid
        if env.dist (env.node (env.graph last_edge_id).endnode).latlng next_coord > 10 then
          .error .endpointTooFar
        else
          let edge_id := p0.edgeid
          let edge := env.graph edge_id
          if ¬ check_access edge then .error .inaccessible
          else if ¬ ∃ c ∈ origin.edges, c.id = edge_id then .error .notAtOrigin
          else
            match matchLoop env dest (next :: rest) with
            | .error r => .error r
            | .ok es => .ok ((p0 :: ps).map PathInfo.edgeid ++ es)

/-- `edge_association::match_edges` (lines 349-469) with the early returns
made explicit as `Except` errors: origin candidate lookup, then the per-pair
loop, then adjacent-duplicate removal. -/
def match_edges_core (env : Env) (lrps : List LRP) : Except MatchFail (List ℕ) :=
  match lrps with
  | [] => .ok []
  | l0 :: rest =>
    match env.search (coord_for_lrp l0) with
    | [] => .error .noOriginCandidate
    | origin :: _ =>
      match matchLoop env origin (l0 :: rest) with
      | .error r => .error r
      | .ok es => .ok (uniqueAdj es)

/-- `edge_association::match_edges` as the source returns it: the empty
vector on any failure. -/
def match_edges (env : Env) (lrps : List LRP) : List ℕ :=
  match match_edges_core env lrps with
  | .error _ => []
  | .ok es => es

/-! ### Association builder (lines 471-589) -/

/-- `kApproxEqualDistanceSquared` (line 471). -/
def kApproxEqualDistanceSquared : ℚ := 100

/-- `approx_equal` (lines 473-475); `D2` is the external
`PointLL::DistanceSquared`. -/
def approx_equal (D2 : Coord → Coord → ℚ) (a b : Coord) : Prop :=
  D2 a b ≤ kApproxEqualDistanceSquared

instance (D2 : Coord → Coord → ℚ) (a b : Coord) :
    Decidable (approx_equal D2 a b) := by unfold approx_equal; infer_instance

/-- `edge_association::lookup_end_coord` (lines 477-487): the coordinate of
the edge's end node. -/
def lookup_end_coord (env : Env) (edge_id : ℕ) : Coord :=
  (env.node (env.graph edge_id).endnode).latlng

/-- `edge_association::lookup_start_coord` (lines 489-500): the end
coordinate of the opposite edge, found through the end node's tile base,
edge index and the edge's `opp_index`. -/
def lookup_start_coord (env : Env) (edge_id : ℕ) : Coord :=
  let node_id := (env.graph edge_id).endnode
  lookup_end_coord env
    (env.tileBase node_id + ((env.node node_id).edge_index + (env.graph edge_id).opp_index))

/-- `edge_association::assign_one_to_one` (lines 548-556): one builder call
carrying a single whole-range association with weight `1.0`. -/
def assign_one_to_one (edge_id segment_id : ℕ) : List BuilderCall :=
  [⟨edge_id, [(⟨segment_id, 0, 1⟩, 1)]⟩]

/-- Running partial sums starting from `a`: `psums a [x, y] = [a+x, a+x+y]`.
This is the `lengths` vector of `assign_one_to_many`'s first loop
(lines 562-569), which pushes the accumulated total after each edge. -/
def psums (a : ℚ) : List ℚ → List ℚ
  | [] => []
  | x :: xs => (a + x) :: psums (a + x) xs

/-- The second loop of `assign_one_to_many` (lines 571-581) over the edges
zipped with their cumulative lengths: each iteration emits one builder call
whose association vector holds the single pair just pushed (the vector is
cleared after every call), with `end_pct` forced to `1.0` on the last edge
and `lengths[i] / total_length` otherwise, and the next `begin_pct` set to
this `end_pct`. -/
def otmLoop (segment_id : ℕ) (total : ℚ) : ℚ → List (ℕ × ℚ) → List BuilderCall
  | _, [] => []
  | b, [(e, _)] => [⟨e, [(⟨segment_id, b, 1⟩, 1)]⟩]
  | b, (e, c) :: p :: rest =>
    ⟨e, [(⟨segment_id, b, c / total⟩, 1)]⟩ :: otmLoop segment_id total (c / total) (p :: rest)

/-- The physical lengths of a list of edges, as rationals. -/
def edgeLens (env : Env) (edges : List ℕ) : List ℚ :=
  edges.map fun e => ((env.graph e).length : ℚ)

/-- The summed physical length of a list of edges (`total_length`). -/
def totalLen (env : Env) (edges : List ℕ) : ℚ :=
  (edgeLens env edges).sum

/-- `edge_association::assign_one_to_many` (lines 558-582). -/
def assign_one_to_many (env : Env) (edges : List ℕ) (segment_id : ℕ) :
    List BuilderCall :=
  otmLoop segment_id (totalLen env edges) 0 (edges.zip (psums 0 (edgeLens env edges)))

/-- `edge_association::save_chunk_for_later` (lines 584-589). -/
def save_chunk_for_later (edges : List ℕ) (segment_id : ℕ) : List partial_chunk :=
  [⟨edges, [segment_id]⟩]

/-- The segment's declared start coordinate (line 509). -/
def seg_start_coord (seg : List LRP) : Coord := coord_for_lrp (seg.headD default)

/-- The segment's declared end coordinate (line 510). -/
def seg_end_coord (seg : List LRP) : Coord := coord_for_lrp (seg.getLastD default)

/-- The tolerance test of `match_segment` (lines 515-516): both the matched
sequence's start and end coordinates approximately equal the declared ones. -/
def in_tolerance (env : Env) (seg : List LRP) (edges : List ℕ) : Prop :=
  approx_equal env.dist2 (seg_start_coord seg) (lookup_start_coord env (edges.headD 0)) ∧
    approx_equal env.dist2 (seg_end_coord seg) (lookup_end_coord env (edges.getLastD 0))

instance (env : Env) (seg : List LRP) (edges : List ℕ) :
    Decidable (in_tolerance env seg edges) := by unfold in_tolerance; infer_instance

/-- `edge_association::match_segment` (lines 502-533), its observable output:
the builder calls made and the partial chunks stored. -/
def match_segment (env : Env) (segment_id : ℕ) (seg : List LRP) :
    List BuilderCall × List partial_chunk :=
  let edges := match_edges env seg
  if edges = [] then ([], [])
  else if in_tolerance env seg edges then
    if edges.length = 1 then (assign_one_to_one (edges.headD 0) segment_id, [])
    else (assign_one_to_many env edges segment_id, [])
  else ([], save_chunk_for_later edges segment_id)

/-! ### Command-line driver (lines 633-710) -/

def EXIT_SUCCESS : ℕ := 0
def EXIT_FAILURE : ℕ := 1

/-- The outcome of boost program-options parsing that `main` inspects:
whether parsing threw, and which options were counted in the variables
map. -/
structure CmdLine where
  parse_ok : Bool
  help : Bool
  version : Bool
  has_config : Bool
  has_tile_dir : Bool
deriving DecidableEq, Repr

/-- The exit status of `main` (lines 655-709): failure on a parse exception;
success on `--help` or a missing `config` positional (the help text is
printed); success on `--version`; failure on a missing `osmlr-tile-dir`;
success on normal completion of the run body. -/
def main_exit (c : CmdLine) : ℕ :=
  if c.parse_ok = false then EXIT_FAILURE
  else if c.help || !c.has_config then EXIT_SUCCESS
  else if c.version then EXIT_SUCCESS
  else if c.has_tile_dir = false then EXIT_FAILURE
  else EXIT_SUCCESS

/-! ### Theorems -/

lemma land233_eq_zero_iff (r : ℕ) :
    r &&& (233 : ℕ) = 0 ↔
      (r.testBit 0 = false ∧ r.testBit 3 = false ∧ r.testBit 5 = false ∧
        r.testBit 6 = false ∧ r.testBit 7 = false) := by
  constructor
  · intro h
    have hb : ∀ b, Nat.testBit 233 b = true → r.testBit b = false := by
      intro b h233
      have h' : (r &&& 233).testBit b = Nat.testBit 0 b := by rw [h]
      rwa [Nat.testBit_land, h233, Nat.zero_testBit, Bool.and_true] at h'
    exact ⟨hb 0 (by decide), hb 3 (by decide), hb 5 (by decide),
      hb 6 (by decide), hb 7 (by decide)⟩
  · rintro ⟨h0, h3, h5, h6, h7⟩
    apply Nat.eq_of_testBit_eq
    intro i
    rw [Nat.testBit_land, Nat.zero_testBit]
    by_cases hi : i < 8
    · have t1 : Nat.testBit 233 1 = false := by decide
      have t2 : Nat.testBit 233 2 = false := by decide
      have t4 : Nat.testBit 233 4 = false := by decide
      interval_cases i <;> simp [h0, h3, h5, h6, h7, t1, t2, t4]
    · have h233 : Nat.testBit 233 i = false :=
        Nat.testBit_eq_false_of_lt
          (lt_of_lt_of_le (by norm_num : (233 : ℕ) < 2 ^ 8)
            (Nat.pow_le_pow_right (by norm_num) (le_of_not_lt hi)))
      simp [h233]

lemma is_oneway_iff (e : DirectedEdge) : is_oneway e ↔ is_oneway_spec e := by
  unfold is_oneway is_oneway_spec
  have hv : vehicularAccess = 233 := rfl
  rw [hv, land233_eq_zero_iff]
  simp only [Bool.not_eq_true]

/-- C6: `form_of_way` returns slip-road if the link flag is set; otherwise
roundabout if the roundabout flag is set; otherwise motorway if the
classification is motorway and the edge is one-way; otherwise
multiple-carriageway if the classification is at or above tertiary and the
edge is one-way; otherwise single-carriageway if the classification is at or
above tertiary; otherwise other — where one-way means no vehicular access
mode (auto, truck, taxi, bus, HOV) is permitted in the reverse direction. -/
theorem form_of_way_correct (e : DirectedEdge) :
    form_of_way e = form_of_way_spec e ∧ (is_oneway e ↔ is_oneway_spec e) := by
  have h := is_oneway_iff e
  refine ⟨?_, h⟩
  unfold form_of_way form_of_way_spec
  simp only [h]

/-- C7 counterexample: an invocation that parses fine, has the `config`
positional argument, but misses the required `osmlr-tile-dir` option, exits
with failure, not success (line 676-679 of the source). -/
theorem main_exit_missing_tile_dir_fails :
    main_exit ⟨true, false, false, true, false⟩ = EXIT_FAILURE ∧
      EXIT_FAILURE ≠ EXIT_SUCCESS := by decide

/-- C7 amended: the exit status is success exactly on parse success followed
by help, a missing `config` positional, version, or full normal completion;
missing `osmlr-tile-dir` (with config present and no help/version) exits
with failure, as does an argument-parsing error. -/
theorem main_exit_status (c : CmdLine) :
    main_exit c = EXIT_SUCCESS ↔
      c.parse_ok = true ∧ (c.help = true ∨ c.has_config = false ∨
        c.version = true ∨ c.has_tile_dir = true) := by
  rcases c with ⟨p, h, v, cf, t⟩
  cases p <;> cases h <;> cases v <;> cases cf <;> cases t <;> decide

/-- C5 counterexample: a heading oracle value of 359.5 satisfies the source's
asserts (`0 ≤ heading < 360`), yet `std::round` sends it to 360, so the
bearing returned by `bearing(sequence)` is not in `[0, 360)`. -/
theorem bearing_seq_reaches_360 :
    (0 : ℚ) ≤ 719 / 2 ∧ (719 / 2 : ℚ) < 360 ∧
      bearing_seq (fun _ => 719 / 2) [⟨0, 0⟩, ⟨1, 1⟩] = 360 := by
  refine ⟨by norm_num, by norm_num, ?_⟩
  unfold bearing_seq croundf
  norm_num

/-- C5 amended: for every coordinate sequence and heading in `[0, 360)` (the
range the source asserts for `HeadingAlongPolyline`'s result), the bearing is
in the closed range `[0, 360]`; the rounding can produce exactly 360. -/
theorem bearing_seq_range (H : List Coord → ℚ) (shape : List Coord)
    (h0 : 0 ≤ H shape) (h1 : H shape < 360) :
    0 ≤ bearing_seq H shape ∧ bearing_seq H shape ≤ 360 := by
  unfold bearing_seq croundf
  rw [if_pos h0]
  refine ⟨Int.le_floor.mpr (by push_cast; linarith), ?_⟩
  have h2 : (⌊H shape + 1 / 2⌋ : ℤ) < 361 := Int.floor_lt.mpr (by push_cast; linarith)
  omega

/-- Witness for the C5 amended theorem at the constant heading 10. -/
theorem bearing_seq_range_witness :
    (0 : ℚ) ≤ 10 ∧ (10 : ℚ) < 360 ∧
      (0 ≤ bearing_seq (fun _ => 10) [] ∧ bearing_seq (fun _ => 10) [] ≤ 360) :=
  ⟨by norm_num, by norm_num,
    bearing_seq_range (fun _ => 10) [] (by norm_num) (by norm_num)⟩

lemma otmLoop_map_edge_id (sid : ℕ) (t : ℚ) (l : List (ℕ × ℚ)) :
    ∀ b : ℚ, (otmLoop sid t b l).map BuilderCall.edge_id = l.map Prod.fst := by
  induction l with
  | nil => intro b; rfl
  | cons x xs ih =>
    intro b
    obtain ⟨e, c⟩ := x
    cases xs with
    | nil => rfl
    | cons y ys => simp [otmLoop, ih]

lemma otmLoop_weights (sid : ℕ) (t : ℚ) (l : List (ℕ × ℚ)) :
    ∀ b : ℚ, ∀ call ∈ otmLoop sid t b l, call.assoc.map Prod.snd = [1] := by
  induction l with
  | nil => intro b call hc; simp [otmLoop] at hc
  | cons x xs ih =>
    intro b call hc
    obtain ⟨e, c⟩ := x
    cases xs with
    | nil =>
      simp only [otmLoop, List.mem_singleton] at hc
      subst hc; rfl
    | cons y ys =>
      simp only [otmLoop, List.mem_cons] at hc
      rcases hc with rfl | hc
      · rfl
      · exact ih (c / t) call hc

lemma psums_length (a : ℚ) (l : List ℚ) : (psums a l).length = l.length := by
  induction l generalizing a with
  | nil => rfl
  | cons x xs ih => simp [psums, ih]

/-- C8: every association record the program emits — in the one-to-one and the
one-to-many case alike — is attached with weight exactly `1.0`, each builder
call carries exactly one record (the accumulation vector is cleared between
edges), and a one-to-many match makes exactly one call per edge, in order. -/
theorem association_weight_one (env : Env) (edges : List ℕ) (sid e1 : ℕ) :
    (∀ call ∈ assign_one_to_one e1 sid, call.assoc.map Prod.snd = [1]) ∧
      (∀ call ∈ assign_one_to_many env edges sid, call.assoc.map Prod.snd = [1]) ∧
      (assign_one_to_many env edges sid).map BuilderCall.edge_id = edges := by
  refine ⟨?_, ?_, ?_⟩
  · intro call hc
    simp only [assign_one_to_one, List.mem_singleton] at hc
    subst hc; rfl
  · intro call hc
    exact otmLoop_weights sid (totalLen env edges) _ 0 call hc
  · rw [assign_one_to_many, otmLoop_map_edge_id]
    exact List.map_fst_zip _ _ (by simp [psums_length, edgeLens])

/-- A concrete nonnegative stand-in for the external `PointLL::Distance`,
used by witnesses and counterexamples. -/
def manhattan (a b : Coord) : ℚ := |b.lng - a.lng| + |b.lat - a.lat|

lemma manhattan_nonneg (a b : Coord) : 0 ≤ manhattan a b :=
  add_nonneg (abs_nonneg _) (abs_nonneg _)

lemma tlAux_nonneg (D : Coord → Coord → ℚ) (hD : ∀ a b, 0 ≤ D a b)
    (l : List Coord) : ∀ prev : Coord, 0 ≤ tlAux D prev l := by
  induction l with
  | nil => intro prev; simp [tlAux]
  | cons c rest ih =>
    intro prev
    rw [tlAux]
    exact add_nonneg (hD prev c) (ih c)

lemma chopAux_overshoot (D : Coord → Coord → ℚ) (hD : ∀ a b, 0 ≤ D a b)
    (dist : ℚ) (l : List Coord) :
    ∀ (prev : Coord) (d : ℚ), d + tlAux D prev l < dist →
      chopAux D dist prev l d = (l, []) := by
  induction l with
  | nil => intro prev d _; rfl
  | cons c rest ih =>
    intro prev d h
    rw [tlAux] at h
    have h1 : ¬ d + D prev c ≥ dist := by
      have := tlAux_nonneg D hD rest c
      push_neg
      linarith
    rw [chopAux, if_neg h1, ih c (d + D prev c) (by linarith)]

lemma chopAux_within (D : Coord → Coord → ℚ) (dist : ℚ) (l : List Coord) :
    ∀ (prev : Coord) (d : ℚ), l ≠ [] → dist ≤ d + tlAux D prev l →
      2 ≤ (chopAux D dist prev l d).2.length := by
  induction l with
  | nil => intro _ _ h _; exact absurd rfl h
  | cons c rest ih =>
    intro prev d _ h
    rw [tlAux] at h
    by_cases h1 : d + D prev c ≥ dist
    · rw [chopAux, if_pos h1]
      simp
    · rw [chopAux, if_neg h1]
      have hrest : rest ≠ [] := by
        rintro rfl
        rw [tlAux] at h
        push_neg at h1
        linarith
      exact ih c (d + D prev c) hrest (by linarith)

lemma interp_zero (a b : Coord) : interp a b 0 = a := by
  cases a
  simp [interp]

/-- C4 counterexample: with the chop distance exactly equal to the sequence's
total cumulative length, `chop_subsegment` takes the interpolation branch at
the final point and leaves the input sequence non-empty (two copies of the
final point), contradicting "greater than or equal ... leaves the input
empty". -/
theorem chop_at_exact_total_leaves_input :
    totalLength manhattan [⟨0, 0⟩, ⟨7, 0⟩] = 7 ∧
      (chop_subsegment manhattan [⟨0, 0⟩, ⟨7, 0⟩] 7).2 = [⟨7, 0⟩, ⟨7, 0⟩] := by
  constructor
  · show tlAux manhattan ⟨0, 0⟩ [⟨7, 0⟩] = 7
    norm_num [tlAux, manhattan]
  · norm_num [chop_subsegment, chopAux, manhattan, interp]

/-- C4 amended: `chop` applied with a distance strictly greater than the
sequence's total cumulative straight-line length returns the entire original
sequence and leaves the input empty; applied with distance `0` it returns a
sequence containing only the first point (every element of the returned
sequence equals the first point). -/
theorem chop_overshoot_and_zero (D : Coord → Coord → ℚ) (hD : ∀ a b, 0 ≤ D a b)
    (p c : Coord) (rest : List Coord) (dist : ℚ) :
    (totalLength D (p :: c :: rest) < dist →
      chop_subsegment D (p :: c :: rest) dist = (p :: c :: rest, [])) ∧
    ((chop_subsegment D (p :: c :: rest) 0).1 ≠ [] ∧
      ∀ q ∈ (chop_subsegment D (p :: c :: rest) 0).1, q = p) := by
  constructor
  · intro h
    rw [totalLength] at h
    rw [chop_subsegment, chopAux_overshoot D hD dist (c :: rest) p 0 (by linarith)]
  · have h1 : (0 : ℚ) + D p c ≥ 0 := by
      have := hD p c
      linarith
    have hz : (0 - 0 : ℚ) / D p c = 0 := by rw [sub_zero, zero_div]
    constructor
    · simp [chop_subsegment]
    · intro q hq
      rw [chop_subsegment] at hq
      simp only [chopAux, if_pos h1, hz, interp_zero] at hq
      simp only [List.mem_cons, List.mem_singleton, List.not_mem_nil] at hq
      rcases hq with rfl | rfl | h
      · rfl
      · rfl
      · exact absurd h (by simp)

/-- Witness for the C4 amended theorem: distance 9 strictly exceeds the total
length 7, the whole sequence is returned and the input is emptied; distance 0
returns copies of the first point only. -/
theorem chop_overshoot_and_zero_witness :
    totalLength manhattan [⟨0, 0⟩, ⟨7, 0⟩] < 9 ∧
      chop_subsegment manhattan [⟨0, 0⟩, ⟨7, 0⟩] 9 = ([⟨0, 0⟩, ⟨7, 0⟩], []) ∧
      ∀ q ∈ (chop_subsegment manhattan [⟨0, 0⟩, ⟨7, 0⟩] 0).1, q = (⟨0, 0⟩ : Coord) :=
  ⟨by norm_num [totalLength, tlAux, manhattan],
    (chop_overshoot_and_zero manhattan manhattan_nonneg ⟨0, 0⟩ ⟨7, 0⟩ [] 9).1
      (by norm_num [totalLength, tlAux, manhattan]),
    (chop_overshoot_and_zero manhattan manhattan_nonneg ⟨0, 0⟩ ⟨7, 0⟩ [] 0).2.2⟩

/-- C10: `chop_subsegment` is guarded by `assert(len > 1)`, so its total
(`Option`-valued) version is defined exactly on sequences of at least two
points; under that precondition, a chop distance within the sequence's total
length leaves a remainder of at least two points (safe to hand to the
sequence-based `bearing`), while a distance strictly beyond the total length
— as `bearing(tile, edge_id, dist)` can produce when the fractional offset
times the edge length exceeds the shape's length — leaves an empty
remainder. -/
theorem chop_totalization (D : Coord → Coord → ℚ) (hD : ∀ a b, 0 ≤ D a b)
    (p c : Coord) (rest : List Coord) (dist : ℚ) :
    (chop_subsegmentO D (p :: c :: rest) dist).isSome ∧
    (∀ s : List Coord, s.length ≤ 1 → chop_subsegmentO D s dist = none) ∧
    (dist ≤ totalLength D (p :: c :: rest) →
      2 ≤ (chop_subsegment D (p :: c :: rest) dist).2.length) ∧
    (totalLength D (p :: c :: rest) < dist →
      (chop_subsegment D (p :: c :: rest) dist).2 = []) := by
  refine ⟨?_, ?_, ?_, ?_⟩
  · rw [chop_subsegmentO, if_neg (by simp)]
    rfl
  · intro s hs
    rw [chop_subsegmentO, if_pos hs]
  · intro h
    rw [totalLength] at h
    rw [chop_subsegment]
    exact chopAux_within D dist (c :: rest) p 0 (by simp) (by linarith)
  · intro h
    rw [totalLength] at h
    rw [chop_subsegment, chopAux_overshoot D hD dist (c :: rest) p 0 (by linarith)]

/-- Witness for C10 at a concrete two-point sequence and in-range distance. -/
theorem chop_totalization_witness :
    (chop_subsegmentO manhattan [⟨0, 0⟩, ⟨7, 0⟩] 3).isSome ∧
      (3 : ℚ) ≤ totalLength manhattan [⟨0, 0⟩, ⟨7, 0⟩] ∧
      2 ≤ (chop_subsegment manhattan [⟨0, 0⟩, ⟨7, 0⟩] 3).2.length :=
  ⟨(chop_totalization manhattan manhattan_nonneg ⟨0, 0⟩ ⟨7, 0⟩ [] 3).1,
    by norm_num [totalLength, tlAux, manhattan],
    (chop_totalization manhattan manhattan_nonneg ⟨0, 0⟩ ⟨7, 0⟩ [] 3).2.2.1
      (by norm_num [totalLength, tlAux, manhattan])⟩

/-- C2: if any step of matching fails — no candidate at origin, no candidate
at a destination, no path, terminal node farther than 10 m from the
destination LRP, first path edge inaccessible, or first path edge not among
the origin candidates (the six `MatchFail` reasons, one per early return of
`match_edges`) — then `match_edges` returns the empty sequence and
`match_segment` emits zero association records and stores no partial chunk;
`match_segment` returns normally, so the run continues. -/
theorem match_failure_emits_nothing (env : Env) (sid : ℕ) (lrps : List LRP)
    (r : MatchFail) (h : match_edges_core env lrps = .error r) :
    match_edges env lrps = [] ∧ match_segment env sid lrps = ([], []) := by
  have he : match_edges env lrps = [] := by
    rw [match_edges, h]
  exact ⟨he, by simp [match_segment, he]⟩

/-- A fully successful concrete world for the matcher witnesses: one directed
edge (id 7 everywhere), accessible, with zero distances so every geometric
check passes. -/
def edgeW : DirectedEdge :=
  { length := 10, forwardaccess := 1, reverseaccess := 0, shortcut := false,
    use := 0, trans_up := false, trans_down := false, link := false,
    roundabout := false, classification := 4, endnode := 1, opp_index := 0,
    forward := true }

def envW : Env :=
  { graph := fun _ => edgeW
    node := fun _ => ⟨⟨0, 0⟩, 0⟩
    tileBase := fun _ => 0
    search := fun c => [⟨c, [⟨7, 0, c⟩]⟩]
    bestPath := fun _ _ => [⟨7, 5⟩]
    dist := fun _ _ => 0
    dist2 := fun _ _ => 0 }

def lrpA : LRP := ⟨0, 0, 0, 4, 0, 10⟩
def lrpB : LRP := ⟨100, 0, 0, 4, 0, 0⟩

/-- A two-LRP segment for the witnesses. -/
def segW : List LRP := [lrpA, lrpB]

/-- A world whose spatial search finds no candidates at all: the very first
step of `match_edges` fails. -/
def envNoCand : Env :=
  { envW with search := fun _ => [] }

/-- Witness for C2: in `envNoCand` the origin lookup fails, and indeed
nothing is emitted or stored. -/
theorem match_failure_emits_nothing_witness :
    match_edges_core envNoCand segW = .error .noOriginCandidate ∧
      (match_edges envNoCand segW = [] ∧ match_segment envNoCand 0 segW = ([], [])) :=
  ⟨rfl, match_failure_emits_nothing envNoCand 0 segW .noOriginCandidate rfl⟩

/-- C3: for a successfully matched segment (non-empty matched sequence), if
both endpoints are within tolerance and the sequence has exactly one edge,
exactly one association record with `begin = 0.0` and `end = 1.0` is emitted
for that edge and no chunk is stored; if either endpoint is out of
tolerance, the sequence is stored as one partial chunk and no record is
emitted; and in every case records and chunks are never both produced, so
the one-to-one, one-to-many and chunk outcomes are mutually exclusive. -/
theorem match_segment_classification (env : Env) (sid : ℕ) (seg : List LRP)
    (hne : match_edges env seg ≠ []) :
    (in_tolerance env seg (match_edges env seg) →
      (match_edges env seg).length = 1 →
      match_segment env sid seg =
        ([⟨(match_edges env seg).headD 0, [(⟨sid, 0, 1⟩, 1)]⟩], [])) ∧
    (¬ in_tolerance env seg (match_edges env seg) →
      match_segment env sid seg = ([], [⟨match_edges env seg, [sid]⟩])) ∧
    ((match_segment env sid seg).1 = [] ∨ (match_segment env sid seg).2 = []) := by
  refine ⟨?_, ?_, ?_⟩
  · intro ht h1
    simp [match_segment, hne, ht, h1, assign_one_to_one]
  · intro ht
    simp [match_segment, hne, ht, save_chunk_for_later]
  · by_cases h0 : match_edges env seg = []
    · left; simp [match_segment, h0]
    · by_cases ht : in_tolerance env seg (match_edges env seg)
      · right
        by_cases h1 : (match_edges env seg).length = 1 <;>
          simp [match_segment, h0, ht, h1]
      · left; simp [match_segment, h0, ht]

/-- Witness for C3: in `envW` the two-LRP segment matches to the single edge
7 within tolerance and yields exactly the whole-range record. -/
theorem match_segment_classification_witness :
    match_edges envW segW ≠ [] ∧
      in_tolerance envW segW (match_edges envW segW) ∧
      (match_edges envW segW).length = 1 ∧
      match_segment envW 42 segW = ([⟨7, [(⟨42, 0, 1⟩, 1)]⟩], []) :=
  ⟨by decide, by decide, by decide,
    (match_segment_classification envW 42 segW (by decide)).1 (by decide) (by decide)⟩

/-- The begin fraction of the single record a builder call carries. -/
def callBegin (call : BuilderCall) : ℚ := ((call.assoc.headD default).1).begin_pct

/-- The end fraction of the single record a builder call carries. -/
def callEnd (call : BuilderCall) : ℚ := ((call.assoc.headD default).1).end_pct

lemma otmLoop_length (sid : ℕ) (t : ℚ) (l : List (ℕ × ℚ)) :
    ∀ b : ℚ, (otmLoop sid t b l).length = l.length := by
  induction l with
  | nil => intro b; rfl
  | cons x xs ih =>
    intro b
    obtain ⟨e, c⟩ := x
    cases xs with
    | nil => rfl
    | cons y ys => simp [otmLoop, ih]

lemma otmLoop_ne_nil (sid : ℕ) (t b : ℚ) (l : List (ℕ × ℚ)) (h : l ≠ []) :
    otmLoop sid t b l ≠ [] := by
  intro h0
  apply h
  have := otmLoop_length sid t l b
  rw [h0] at this
  exact List.length_eq_zero.mp this.symm

lemma otmLoop_head_begin (sid : ℕ) (t : ℚ) (l : List (ℕ × ℚ)) :
    ∀ b : ℚ, l ≠ [] → callBegin ((otmLoop sid t b l).headD default) = b := by
  intro b h
  cases l with
  | nil => exact absurd rfl h
  | cons x xs =>
    obtain ⟨e, c⟩ := x
    cases xs with
    | nil => rfl
    | cons y ys => rfl

lemma otmLoop_last_end (sid : ℕ) (t : ℚ) (l : List (ℕ × ℚ)) :
    ∀ b : ℚ, l ≠ [] → callEnd ((otmLoop sid t b l).getLastD default) = 1 := by
  induction l with
  | nil => intro b h; exact absurd rfl h
  | cons x xs ih =>
    intro b _
    obtain ⟨e, c⟩ := x
    cases xs with
    | nil => rfl
    | cons y ys =>
      rw [otmLoop, List.getLastD_cons]
      cases h0 : otmLoop sid t (c / t) (y :: ys) with
      | nil => exact absurd h0 (otmLoop_ne_nil sid t (c / t) (y :: ys) (by simp))
      | cons z zs =>
        have hlast := ih (c / t) (by simp)
        rw [h0] at hlast
        rw [List.getLastD_cons] at hlast ⊢
        exact hlast

lemma otmLoop_chain (sid : ℕ) (t : ℚ) (l : List (ℕ × ℚ)) :
    ∀ b : ℚ, List.Chain' (fun r s => callEnd r = callBegin s) (otmLoop sid t b l) := by
  induction l with
  | nil => intro b; simp [otmLoop]
  | cons x xs ih =>
    intro b
    obtain ⟨e, c⟩ := x
    cases xs with
    | nil => simp [otmLoop]
    | cons y ys =>
      rw [otmLoop]
      apply List.chain'_cons'.mpr
      refine ⟨?_, ih (c / t)⟩
      intro z hz
      have hne := otmLoop_ne_nil sid t (c / t) (y :: ys) (by simp)
      have hb := otmLoop_head_begin sid t (y :: ys) (c / t) (by simp)
      cases h0 : otmLoop sid t (c / t) (y :: ys) with
      | nil => exact absurd h0 hne
      | cons w ws =>
        rw [h0] at hz
        simp only [List.head?_cons, Option.mem_some_iff] at hz
        subst hz
        rw [h0] at hb
        simp only [List.headD_cons] at hb
        rw [callEnd]
        simp only [List.headD_cons]
        exact hb.symm

lemma otmLoop_spans (sid : ℕ) (t : ℚ) (ht : t ≠ 0) (es : List ℕ) :
    ∀ (lens : List ℚ) (a : ℚ), es.length = lens.length → a + lens.sum = t →
      (otmLoop sid t (a / t) (es.zip (psums a lens))).map
          (fun r => callEnd r - callBegin r) =
        lens.map (· / t) := by
  induction es with
  | nil =>
    intro lens a hlen _
    have : lens = [] := List.length_eq_zero.mp hlen.symm
    subst this
    rfl
  | cons e es' ih =>
    intro lens a hlen hsum
    cases lens with
    | nil => exact absurd hlen (by simp)
    | cons x lens' =>
      rw [psums]
      cases es' with
      | nil =>
        have : lens' = [] := by
          simpa using List.length_eq_zero.mp (by simpa using hlen.symm)
        subst this
        simp only [psums, List.zip_cons_cons, List.zip_nil_left, otmLoop,
          List.map_cons, List.map_nil]
        have hx : x = t - a := by
          simp at hsum
          linarith
        rw [callEnd, callBegin]
        simp only [List.headD_cons]
        show [(1 : ℚ) - a / t] = [x / t]
        rw [hx, sub_div, div_self ht]
      | cons e' es'' =>
        cases lens' with
        | nil => exact absurd hlen (by simp)
        | cons x' lens'' =>
          rw [psums, List.zip_cons_cons, List.zip_cons_cons, otmLoop]
          rw [List.map_cons, List.map_cons]
          have hhead : callEnd (⟨e, [(⟨sid, a / t, (a + x) / t⟩, 1)]⟩ : BuilderCall) -
              callBegin (⟨e, [(⟨sid, a / t, (a + x) / t⟩, 1)]⟩ : BuilderCall) = x / t := by
            rw [callEnd, callBegin]
            simp only [List.headD_cons]
            show (a + x) / t - a / t = x / t
            rw [div_sub_div_same]
            ring_nf
          rw [hhead]
          congr 1
          have htail := ih (x' :: lens'') (a + x) (by simpa using hlen)
            (by simp only [List.sum_cons] at hsum ⊢; linarith)
          rw [psums] at htail
          rw [List.zip_cons_cons] at htail
          exact htail

/-- C1: for a segment matched within tolerance to `k ≥ 2` edges with positive
summed length, `assign_one_to_many` makes exactly `k` builder calls whose
fraction intervals begin at `0.0`, end at exactly `1.0` on the last call (the
forced boundary), chain each begin to the previous end, are non-decreasing,
and whose spans equal each edge's length divided by the summed length of all
`k` edges (exact over `ℚ`, i.e. within floating rounding of the `float`
arithmetic). -/
theorem one_to_many_fractions (env : Env) (sid : ℕ) (edges : List ℕ)
    (hk : 2 ≤ edges.length) (ht : 0 < totalLen env edges) :
    (assign_one_to_many env edges sid).length = edges.length ∧
    callBegin ((assign_one_to_many env edges sid).headD default) = 0 ∧
    callEnd ((assign_one_to_many env edges sid).getLastD default) = 1 ∧
    List.Chain' (fun r s => callEnd r = callBegin s) (assign_one_to_many env edges sid) ∧
    (∀ call ∈ assign_one_to_many env edges sid, callBegin call ≤ callEnd call) ∧
    (assign_one_to_many env edges sid).map (fun r => callEnd r - callBegin r) =
      (edgeLens env edges).map (· / totalLen env edges) := by
  have hne : edges ≠ [] := by
    intro h; rw [h] at hk; simp at hk
  have hzne : edges.zip (psums 0 (edgeLens env edges)) ≠ [] := by
    cases edges with
    | nil => exact absurd rfl hne
    | cons e es =>
      rw [edgeLens, List.map_cons, psums, List.zip_cons_cons]
      simp
  have htne : totalLen env edges ≠ 0 := ne_of_gt ht
  have hziplen : (edges.zip (psums 0 (edgeLens env edges))).length = edges.length := by
    rw [List.length_zip, psums_length, edgeLens, List.length_map, min_self]
  have hspans : (assign_one_to_many env edges sid).map
      (fun r => callEnd r - callBegin r) =
      (edgeLens env edges).map (· / totalLen env edges) := by
    have h' := otmLoop_spans sid (totalLen env edges) htne edges (edgeLens env edges) 0
      (by rw [edgeLens, List.length_map]) (by rw [totalLen, zero_add])
    rw [zero_div] at h'
    rw [assign_one_to_many]
    exact h'
  refine ⟨?_, ?_, ?_, ?_, ?_, hspans⟩
  · rw [assign_one_to_many, otmLoop_length, hziplen]
  · rw [assign_one_to_many]
    exact otmLoop_head_begin sid (totalLen env edges) _ 0 hzne
  · rw [assign_one_to_many]
    exact otmLoop_last_end sid (totalLen env edges) _ 0 hzne
  · rw [assign_one_to_many]
    exact otmLoop_chain sid (totalLen env edges) _ 0
  · intro call hc
    have hmem : callEnd call - callBegin call ∈
        (assign_one_to_many env edges sid).map (fun r => callEnd r - callBegin r) :=
      List.mem_map_of_mem _ hc
    rw [hspans] at hmem
    obtain ⟨x, hx, hxe⟩ := List.mem_map.mp hmem
    obtain ⟨e, _, rfl⟩ := List.mem_map.mp hx
    have h0 : (0 : ℚ) ≤ ((env.graph e).length : ℚ) / totalLen env edges :=
      div_nonneg (Nat.cast_nonneg _) (le_of_lt ht)
    rw [hxe] at h0
    linarith

/-- A two-edge world for the C1 witness: edge 3 has length 30, every other
edge (in particular edge 4) has length 10. -/
def envC : Env :=
  { envW with graph := fun e => if e = 3 then { edgeW with length := 30 } else edgeW }

/-- Witness for C1 at edges `[3, 4]` (lengths 30 and 10): two calls whose
spans are `30/40` and `10/40`. -/
theorem one_to_many_fractions_witness :
    2 ≤ [3, 4].length ∧ 0 < totalLen envC [3, 4] ∧
      (assign_one_to_many envC [3, 4] 9).length = [3, 4].length ∧
      callEnd ((assign_one_to_many envC [3, 4] 9).getLastD default) = 1 :=
  ⟨by norm_num, by norm_num [totalLen, edgeLens, envC, envW, edgeW],
    (one_to_many_fractions envC 9 [3, 4] (by norm_num)
      (by norm_num [totalLen, edgeLens, envC, envW, edgeW])).1,
    (one_to_many_fractions envC 9 [3, 4] (by norm_num)
      (by norm_num [totalLen, edgeLens, envC, envW, edgeW])).2.2.1⟩

end AssocSeg
